import Mathlib

/-!
Verification of the witcher window-switcher daemon (Rust, src/) against its
natural-language specification. The development shallowly embeds the parts
of the code the claims are about:

* src/mru.rs — the MRU history (update_on_focus) and the ranking function
  (order_windows);
* src/switcher.rs — the session state machine (cycling, finalize, the
  keyboard and layer event handlers) as a step function on an explicit
  state, with the backend focus side effect recorded in a call log;
* src/backend.rs — the backend adapter dispatch, with the Niri/Hyprland IPC
  interactions abstracted as environment oracles (the claims verified here
  concern only the branches taken for the other backends);
* src/daemon.rs — socket payload classification, the per-connection
  acknowledgment, command routing, and the single-instance probe.

Machine integers: window ids are u64 in Rust; none of the verified code
paths do arithmetic on them (they are only compared, stored and
reformatted), so they are embedded as Nat. Indices (usize) are embedded as
Nat, and the one signed computation (rem_euclid in Switcher::cycle) as
Int.emod, which is exactly Rust's rem_euclid on the mathematical integers
reachable here (no overflow: window counts are tiny). Socket payload bytes
are Nats below 256.
-/

namespace Witcher

/-! ### Data model (src/types.rs) -/

/-- Window record as consumed by the MRU ranker and the switcher
(src/types.rs, struct WindowEntry). The icon field is an opaque image
handle, produced by the excluded icon layer and never inspected by the
ranking or session logic, so it is omitted from the embedding. -/
structure WindowEntry where
  id : Nat
  is_focused : Bool
deriving DecidableEq, Repr

/-! ### MRU history and ranking (src/mru.rs) -/

/-- History update of src/mru.rs (MruState::update_on_focus): retain every
entry different from id, insert id at the front, and truncate to 256
entries when the result exceeds 256. -/
def update_on_focus (order : List Nat) (id : Nat) : List Nat :=
  let inserted := id :: order.filter (fun existing => existing != id)
  if inserted.length > 256 then inserted.take 256 else inserted

/-- Position assigned to x by the HashMap built in order_windows of
src/mru.rs: the pairs (idx, id) are inserted in order of increasing idx, so
for a duplicated id the later (larger) index overwrites the earlier one.
orderIndexAux n order x is that final value when order is enumerated
starting at index n. -/
def orderIndexAux (n : Nat) (order : List Nat) (x : Nat) : Option Nat :=
  match order with
  | [] => none
  | a :: rest =>
    match orderIndexAux (n + 1) rest x with
    | some m => some m
    | none => if a = x then some n else none

/-- Lookup in the order-index map of src/mru.rs order_windows. -/
def orderIndex (order : List Nat) (x : Nat) : Option Nat :=
  orderIndexAux 0 order x

/-- Size of that HashMap — one entry per distinct id in the history
(order_index.len() in src/mru.rs). -/
def orderIndexSize (order : List Nat) : Nat :=
  order.dedup.length

/-- Focused id used by order_windows: the id of the first window flagged
is_focused (src/mru.rs line 18). -/
def focusedId (windows : List WindowEntry) : Option Nat :=
  (windows.find? (fun w => w.is_focused)).map (fun w => w.id)

/-- Rank computed by order_windows in src/mru.rs for window w sitting at
original index idx of the enumerated input list. -/
def codeRank (order : List Nat) (focused : Option Nat) (w : WindowEntry)
    (idx : Nat) : Nat :=
  if some w.id = focused then 0
  else
    match orderIndex order w.id with
    | some m => 1 + m
    | none => 1 + orderIndexSize order + idx

/-- Comparison used by the final sort of order_windows: ascending
lexicographic order on (rank, original index), the exact key of
ranked.sort_by comparing (a.0, a.1) with (b.0, b.1) in src/mru.rs. -/
def rankLe (a b : Nat × Nat × WindowEntry) : Prop :=
  a.1 < b.1 ∨ (a.1 = b.1 ∧ a.2.1 ≤ b.2.1)

instance : DecidableRel rankLe := fun a b => by
  unfold rankLe
  infer_instance

instance : IsTotal (Nat × Nat × WindowEntry) rankLe :=
  ⟨by intro a b; unfold rankLe; omega⟩

instance : IsTrans (Nat × Nat × WindowEntry) rankLe :=
  ⟨by intro a b c; unfold rankLe; omega⟩

/-- Decorated list built by order_windows in src/mru.rs: each window paired
with its rank and its original index (the vector named ranked in the
source). -/
def rankedList (order : List Nat) (windows : List WindowEntry) :
    List (Nat × Nat × WindowEntry) :=
  windows.enum.map (fun p => (codeRank order (focusedId windows) p.2 p.1, p.1, p.2))

/-- MRU ranking of src/mru.rs (MruState::order_windows): decorate each
window with its rank and original index, sort by (rank, index), strip the
decoration. Rust's sort_by is a stable sort; the embedding uses insertion
sort, which is also stable, and the sort keys (rank, original index) are in
any case pairwise distinct because the original indices are, so every
sorting algorithm respecting the key order produces this exact list. -/
def order_windows (order : List Nat) (windows : List WindowEntry) :
    List WindowEntry :=
  ((rankedList order windows).insertionSort rankLe).map (fun t => t.2.2)

/-- Original index of a window in the snapshot list, recovered through its
id (well-defined when the ids are pairwise distinct). -/
def origIdx (ws : List WindowEntry) (w : WindowEntry) : Nat :=
  List.indexOf w.id (ws.map (fun v => v.id))

/-- Rank of a window exactly as the specification words it (the comparison
target for the refinement claim C1): the focused window ranks 0; any other
window present in the recency history ranks 1 + its position in that
history; any window absent from history ranks 1 + history length + its
original index. -/
def specRank (order : List Nat) (ws : List WindowEntry) (w : WindowEntry) :
    Nat :=
  if w.is_focused then 0
  else if w.id ∈ order then 1 + List.indexOf w.id order
  else 1 + order.length + origIdx ws w

/-! ### Session state machine (src/switcher.rs) -/

/-- Keysyms inspected by the press/release handlers of src/switcher.rs;
every other keysym falls into the wildcard arm. -/
inductive Keysym where
  | tab
  | isoLeftTab
  | escape
  | enter
  | kpEnter
  | altL
  | altR
  | other
deriving DecidableEq, Repr

/-- Events delivered by the Wayland event loop to the Switcher handlers:
key press, key release, modifier update (only the alt flag is inspected by
update_modifiers), and the layer surface being closed. Drawing, configure
and output events do not touch the session control state and are omitted. -/
inductive SwEvent where
  | pressKey (k : Keysym)
  | releaseKey (k : Keysym)
  | updateModifiers (alt : Bool)
  | layerClosed
deriving DecidableEq, Repr

/-- Control-relevant fields of struct Switcher in src/switcher.rs, plus
focusCalls, the log of ids passed to the backend focus_window call (whose
result finalize discards with a let-underscore, so the call log fully
captures the side effect). -/
structure SwState where
  windows : List WindowEntry
  selected : Nat
  modAlt : Bool
  exit : Bool
  finalized : Bool
  focusCalls : List Nat
deriving DecidableEq, Repr

/-- Switcher::finalize (src/switcher.rs): if not already finalized, mark
finalized, focus the selected window when the index is valid, and request
exit. -/
def finalize (s : SwState) : SwState :=
  if s.finalized then s
  else
    let s1 : SwState := { s with finalized := true }
    let s2 : SwState :=
      match s1.windows.get? s1.selected with
      | some w => { s1 with focusCalls := s1.focusCalls ++ [w.id] }
      | none => s1
    { s2 with exit := true }

/-- Switcher::cycle (src/switcher.rs): move the selection by delta modulo
the window count; Rust's rem_euclid is Int.emod. The redraw it requests is
presentation-layer behavior and is elided. -/
def cycle (s : SwState) (delta : Int) : SwState :=
  if s.windows.isEmpty then s
  else if (((s.selected : Int) + delta).emod
      ((s.windows.length : Int))).toNat ≠ s.selected then
    { s with selected := (((s.selected : Int) + delta).emod
      ((s.windows.length : Int))).toNat }
  else s

/-- KeyboardHandler::press_key of src/switcher.rs. -/
def press_key (s : SwState) (k : Keysym) : SwState :=
  match k with
  | .tab => cycle s 1
  | .isoLeftTab => cycle s (-1)
  | .escape => { s with exit := true }
  | .enter => finalize s
  | .kpEnter => finalize s
  | _ => s

/-- KeyboardHandler::release_key of src/switcher.rs: releasing either Alt
key finalizes. -/
def release_key (s : SwState) (k : Keysym) : SwState :=
  if k = .altL ∨ k = .altR then finalize s else s

/-- KeyboardHandler::update_modifiers of src/switcher.rs: store the new
modifier state; if alt went from held to released, finalize. -/
def update_modifiers (s : SwState) (alt : Bool) : SwState :=
  let was := s.modAlt
  let s1 : SwState := { s with modAlt := alt }
  if was && !alt then finalize s1 else s1

/-- One dispatch step of the session event loop: the four handlers of
src/switcher.rs that touch session control state (LayerShellHandler::closed
sets exit). -/
def step (s : SwState) (e : SwEvent) : SwState :=
  match e with
  | .pressKey k => press_key s k
  | .releaseKey k => release_key s k
  | .updateModifiers alt => update_modifiers s alt
  | .layerClosed => { s with exit := true }

/-- Dispatch loop of run_switcher (src/switcher.rs lines 105-113): events
are processed until exit is set; events arriving after that are no longer
dispatched. -/
def runEvents (s : SwState) (es : List SwEvent) : SwState :=
  es.foldl (fun s e => if s.exit then s else step s e) s

/-- Initial selected index of run_switcher: 1 when more than one window is
present, else 0. -/
def initSelected (ws : List WindowEntry) : Nat :=
  if ws.length > 1 then 1 else 0

/-- Session state at the start of the event loop of run_switcher
(Modifiers::default() has alt = false). -/
def initState (ws : List WindowEntry) : SwState :=
  { windows := ws, selected := initSelected ws, modAlt := false,
    exit := false, finalized := false, focusCalls := [] }

/-- run_switcher of src/switcher.rs at the granularity the claims need:
given the MRU history and the windows reported by the backend (after the
id-dedup of load_windows), an empty snapshot skips the session; otherwise
the history is updated with the already-focused window (if any), the list
is ranked, the event loop runs, and the function returns (the history after
the snapshot update, the value returned to the daemon — the id of the
currently selected window, whether or not finalize ran — and the log of
backend focus calls made during the session). -/
def run_switcher (mru : List Nat) (bws : List WindowEntry)
    (es : List SwEvent) : List Nat × Option Nat × List Nat :=
  if bws.isEmpty then (mru, none, [])
  else
    let mru1 :=
      match focusedId bws with
      | some id => update_on_focus mru id
      | none => mru
    let sF := runEvents (initState (order_windows mru1 bws)) es
    (mru1, (sF.windows.get? sF.selected).map (fun w => w.id), sF.focusCalls)

/-- Daemon main-loop handling of a finished session (src/daemon.rs lines
101-106): on Ok(Some(id)) update the MRU history with that id; on Ok(None)
leave it alone. -/
def daemon_after_session (mru : List Nat) (result : Option Nat) : List Nat :=
  match result with
  | some id => update_on_focus mru id
  | none => mru

/-- Concrete mid-session state used by the C2 witness: two windows, window
at index 1 selected, Alt held, nothing finalized yet. -/
def sampleSession : SwState :=
  { windows := [⟨1, true⟩, ⟨2, false⟩], selected := 1, modAlt := true,
    exit := false, finalized := false, focusCalls := [] }

/-! ### Backend adapter (src/backend.rs) -/

/-- Compositor identities (src/types.rs, enum BackendKind). -/
inductive BackendKind where
  | Niri
  | Sway
  | Hyprland
  | Kwin
  | Gnome
deriving DecidableEq, Repr

/-- Normalized window record produced by the adapter (src/backend.rs,
struct BackendWindow). -/
structure BackendWindow where
  id : Nat
  app_id : Option String
  is_focused : Bool
deriving DecidableEq, Repr

/-- Outcomes of the IPC/CLI interactions performed by the Niri and Hyprland
arms of the adapter. Those arms talk to sockets and spawn processes; the
claims verified here concern only the wildcard arms, so the supported arms
are abstracted as oracles fixed by the environment. -/
structure BackendEnv where
  niriWindows : Except String (List BackendWindow)
  hyprWindows : Except String (List BackendWindow)
  niriFocusedOutput : Except String (Option (Int × Int) × Nat)
  hyprFocusedOutput : Except String (Option (Int × Int) × Nat)
  niriFocus : Nat → Except String Unit
  hyprFocus : Nat → Except String Unit

/-- backend_windows of src/backend.rs: dispatch on the backend; every value
other than Niri and Hyprland falls into the wildcard arm returning the
"backend not supported" error. -/
def backend_windows (env : BackendEnv) (b : BackendKind) :
    Except String (List BackendWindow) :=
  match b with
  | .Niri => env.niriWindows
  | .Hyprland => env.hyprWindows
  | _ => Except.error "backend not supported"

/-- focus_window of src/backend.rs: same dispatch; unsupported backends
error. -/
def focus_window (env : BackendEnv) (b : BackendKind) (id : Nat) :
    Except String Unit :=
  match b with
  | .Niri => env.niriFocus id
  | .Hyprland => env.hyprFocus id
  | _ => Except.error "backend not supported"

/-- focused_output_info of src/backend.rs: same dispatch, but the wildcard
arm succeeds with the default (None, 1) instead of erroring. -/
def focused_output_info (env : BackendEnv) (b : BackendKind) :
    Except String (Option (Int × Int) × Nat) :=
  match b with
  | .Niri => env.niriFocusedOutput
  | .Hyprland => env.hyprFocusedOutput
  | _ => Except.ok (none, 1)

/-- Environment in which every IPC/CLI interaction fails (nothing is
running); used to instantiate closed statements. -/
def trivialEnv : BackendEnv :=
  { niriWindows := Except.error "io unavailable",
    hyprWindows := Except.error "io unavailable",
    niriFocusedOutput := Except.error "io unavailable",
    hyprFocusedOutput := Except.error "io unavailable",
    niriFocus := fun _ => Except.error "io unavailable",
    hyprFocus := fun _ => Except.error "io unavailable" }

/-! ### Control socket and daemon listener (src/daemon.rs) -/

/-- Lower bound of the first continuation byte of a 3-byte UTF-8 sequence
led by b (0xE0 starts at 0xA0 to exclude overlong forms). -/
def utf8Cont2Lo (b : Nat) : Nat := if b = 0xE0 then 0xA0 else 0x80

/-- Upper bound of the first continuation byte of a 3-byte UTF-8 sequence
led by b (0xED stops at 0x9F to exclude surrogates). -/
def utf8Cont2Hi (b : Nat) : Nat := if b = 0xED then 0x9F else 0xBF

/-- Lower bound of the first continuation byte of a 4-byte UTF-8 sequence
led by b (0xF0 starts at 0x90 to exclude overlong forms). -/
def utf8Cont3Lo (b : Nat) : Nat := if b = 0xF0 then 0x90 else 0x80

/-- Upper bound of the first continuation byte of a 4-byte UTF-8 sequence
led by b (0xF4 stops at 0x8F to cap at U+10FFFF). -/
def utf8Cont3Hi (b : Nat) : Nat := if b = 0xF4 then 0x8F else 0xBF

/-- UTF-8 validation and decoding as performed by Rust's
std::str::from_utf8 (RFC 3629 table: 2-byte leads C2–DF; 3-byte leads
E0/E1–EC/ED/EE–EF with the first continuation range restricted for E0 and
ED; 4-byte leads F0/F1–F3/F4 with the first continuation range restricted
for F0 and F4; overlong encodings, surrogates and values above U+10FFFF
rejected). Returns the code points on success, none on invalid input. -/
def utf8Decode : List Nat → Option (List Nat)
  | [] => some []
  | b :: rest =>
    if b < 0x80 then
      (utf8Decode rest).map (fun cs => b :: cs)
    else if 0xC2 ≤ b ∧ b ≤ 0xDF then
      match rest with
      | b2 :: rest2 =>
        if 0x80 ≤ b2 ∧ b2 ≤ 0xBF then
          (utf8Decode rest2).map (fun cs =>
            ((b - 0xC0) * 0x40 + (b2 - 0x80)) :: cs)
        else none
      | [] => none
    else if 0xE0 ≤ b ∧ b ≤ 0xEF then
      match rest with
      | b2 :: b3 :: rest3 =>
        if (utf8Cont2Lo b ≤ b2 ∧ b2 ≤ utf8Cont2Hi b) ∧
            (0x80 ≤ b3 ∧ b3 ≤ 0xBF) then
          (utf8Decode rest3).map (fun cs =>
            ((b - 0xE0) * 0x1000 + (b2 - 0x80) * 0x40 + (b3 - 0x80)) :: cs)
        else none
      | _ => none
    else if 0xF0 ≤ b ∧ b ≤ 0xF4 then
      match rest with
      | b2 :: b3 :: b4 :: rest4 =>
        if (utf8Cont3Lo b ≤ b2 ∧ b2 ≤ utf8Cont3Hi b) ∧
            (0x80 ≤ b3 ∧ b3 ≤ 0xBF) ∧ (0x80 ≤ b4 ∧ b4 ≤ 0xBF) then
          (utf8Decode rest4).map (fun cs =>
            ((b - 0xF0) * 0x40000 + (b2 - 0x80) * 0x1000 +
              (b3 - 0x80) * 0x40 + (b4 - 0x80)) :: cs)
        else none
      | _ => none
    else none

/-- Rust char::is_whitespace, i.e. the Unicode White_Space property, on a
code point; used by str::trim. -/
def isRustWhitespace (c : Nat) : Bool :=
  c = 0x09 || c = 0x0A || c = 0x0B || c = 0x0C || c = 0x0D || c = 0x20 ||
  c = 0x85 || c = 0xA0 || c = 0x1680 || (0x2000 ≤ c && c ≤ 0x200A) ||
  c = 0x2028 || c = 0x2029 || c = 0x202F || c = 0x205F || c = 0x3000

/-- Rust str::trim on a decoded code-point sequence: strip leading and
trailing whitespace. -/
def trimCp (cs : List Nat) : List Nat :=
  (((cs.dropWhile isRustWhitespace).reverse).dropWhile isRustWhitespace).reverse

/-- ASCII lowercasing of one code point (Rust to_ascii_lowercase). -/
def asciiLower (c : Nat) : Nat := if 0x41 ≤ c ∧ c ≤ 0x5A then c + 0x20 else c

/-- Rust str::eq_ignore_ascii_case against an ASCII right-hand side.
Rust compares the UTF-8 bytes after ASCII lowercasing; comparing the code
points instead is equivalent whenever one side is pure ASCII — a non-ASCII
code point encodes to bytes at or above 0x80, which never ASCII-case-fold
onto an ASCII byte, so both views agree on equality. -/
def eqIgnoreAsciiCase (a b : List Nat) : Bool :=
  a.map asciiLower == b.map asciiLower

/-- Messages of the daemon queue (src/daemon.rs, enum DaemonMsg). -/
inductive DaemonMsg where
  | Show
  | ShowPrev
deriving DecidableEq, Repr

/-- Code points (equally, bytes) of the ASCII string "prev". -/
def prevBytes : List Nat := [0x70, 0x72, 0x65, 0x76]

/-- Code points (equally, bytes) of the ASCII string "ping", the payload
written by the probe connection of bind_listener. -/
def pingBytes : List Nat := [0x70, 0x69, 0x6E, 0x67]

/-- parse_socket_msg of src/daemon.rs:
from_utf8(buf).unwrap_or("").trim().eq_ignore_ascii_case("prev") selects
ShowPrev; everything else — empty, invalid UTF-8, unrecognized — is Show. -/
def parse_socket_msg (buf : List Nat) : DaemonMsg :=
  if eqIgnoreAsciiCase (trimCp ((utf8Decode buf).getD [])) prevBytes then
    DaemonMsg.ShowPrev
  else DaemonMsg.Show

/-- Per-connection behavior of the listener thread of src/daemon.rs lines
63-75: read the payload, write the two-byte acknowledgment "ok" (bytes
0x6F 0x6B), classify the payload. -/
def listener_handle (buf : List Nat) : List Nat × DaemonMsg :=
  ([0x6F, 0x6B], parse_socket_msg buf)

/-- Session control messages (declared by the switcher module and routed by
try_send_control in src/daemon.rs). -/
inductive SwitcherControl where
  | CycleNext
  | CyclePrev
deriving DecidableEq, Repr

/-- Where the listener delivers a classified message. -/
inductive Delivered where
  | toSession (c : SwitcherControl)
  | toMainQueue (m : DaemonMsg)
deriving DecidableEq, Repr

/-- Routing of a classified message by the listener thread of
src/daemon.rs (try_send_control falling back to the main queue): when a
session is active the message is translated to a session control message
and sent to the session, otherwise it is pushed onto the main daemon
queue. In both cases the message is delivered. -/
def route (sessionActive : Bool) (m : DaemonMsg) : Delivered :=
  if sessionActive then
    Delivered.toSession
      (match m with
        | .Show => SwitcherControl.CycleNext
        | .ShowPrev => SwitcherControl.CyclePrev)
  else Delivered.toMainQueue m

/-- Filesystem-visible actions bind_listener of src/daemon.rs can take on
the control endpoint. -/
inductive FsAction where
  | probeConnect
  | removeStale
  | bindSocket
deriving DecidableEq, Repr

/-- bind_listener of src/daemon.rs, parameterized by whether a peer daemon
answers the probe connection: if the connect succeeds the function writes
"ping", reads the reply and fails with "witcher daemon already running",
touching nothing else; otherwise it removes any stale socket file and binds
afresh. Returns the action trace and the outcome. -/
def bind_listener (peerAnswers : Bool) : List FsAction × Except String Unit :=
  if peerAnswers then
    ([FsAction.probeConnect], Except.error "witcher daemon already running")
  else
    ([FsAction.probeConnect, FsAction.removeStale, FsAction.bindSocket],
      Except.ok ())

/-- Classification condition exactly as the specification words it (the
comparison target for C7): the payload decodes as UTF-8 and, trimmed,
equals "prev" ASCII-case-insensitively. -/
def specClassifiesPrev (buf : List Nat) : Prop :=
  ∃ cs, utf8Decode buf = some cs ∧
    eqIgnoreAsciiCase (trimCp cs) prevBytes = true

/-! ## Helper lemmas about update_on_focus -/

lemma update_on_focus_preserves (order : List Nat) (id : Nat)
    (h : order.Nodup) :
    (update_on_focus order id).Nodup ∧
      (update_on_focus order id).length ≤ 256 := by
  unfold update_on_focus
  set f := order.filter (fun existing => existing != id) with hf
  have hfnodup : f.Nodup := List.Nodup.filter _ h
  have hid : id ∉ f := by
    intro hmem
    have := List.of_mem_filter (p := fun existing => existing != id) hmem
    simp at this
  have hcons : (id :: f).Nodup := List.nodup_cons.mpr ⟨hid, hfnodup⟩
  by_cases hlen : (id :: f).length > 256
  · simp only [hlen, if_pos]
    constructor
    · exact List.Nodup.sublist (List.take_sublist _ _) hcons
    · simp [List.length_take]
  · simp only [hlen, if_neg, not_false_iff]
    exact ⟨hcons, by omega⟩

/-! ## C8: bounded, duplicate-free history -/

/-- C8: starting from the empty MRU history, after any sequence of
update_on_focus calls the history has at most 256 entries and contains no
duplicate id; since the sequence is arbitrary, this holds at every
intermediate state as well. -/
theorem mru_history_bounded_and_nodup (updates : List Nat) :
    (updates.foldl update_on_focus []).Nodup ∧
      (updates.foldl update_on_focus []).length ≤ 256 := by
  suffices h : ∀ (start : List Nat), start.Nodup → start.length ≤ 256 →
      (updates.foldl update_on_focus start).Nodup ∧
        (updates.foldl update_on_focus start).length ≤ 256 by
    exact h [] List.nodup_nil (by simp)
  induction updates with
  | nil => intro start h1 h2; exact ⟨h1, h2⟩
  | cons u rest ih =>
    intro start h1 _h2
    have := update_on_focus_preserves start u h1
    exact ih _ this.1 this.2

/-! ## C10: idempotence of update_on_focus -/

lemma filter_ne_self_of_filter {order : List Nat} {id : Nat} :
    ((order.filter (fun e => e != id)).filter (fun e => e != id)) =
      order.filter (fun e => e != id) :=
  List.filter_eq_self.mpr
    (fun _ ha => List.of_mem_filter (p := fun e => e != id) ha)

/-- C10: calling update_on_focus twice in a row with the same id produces
the same history as calling it once, for every history state and every
id. -/
theorem update_on_focus_idempotent (order : List Nat) (id : Nat) :
    update_on_focus (update_on_focus order id) id =
      update_on_focus order id := by
  unfold update_on_focus
  set f := order.filter (fun existing => existing != id) with hf
  by_cases hlen : (id :: f).length > 256
  · -- truncation kicked in: the once-updated history is id :: f.take 255
    simp only [hlen, if_pos]
    have h255 : (256 : Nat) = 255 + 1 := rfl
    rw [h255, List.take_succ_cons]
    have hfil : (id :: f.take 255).filter (fun e => e != id) = f.take 255 := by
      rw [List.filter_cons]
      simp only [bne_self_eq_false, Bool.false_eq_true, if_neg, not_false_iff]
      exact List.filter_eq_self.mpr
        (fun a ha =>
          List.of_mem_filter (p := fun e => e != id) (List.mem_of_mem_take ha))
    rw [hfil]
    have hflen : f.length ≥ 256 := by
      simp at hlen; omega
    have htl : (f.take 255).length = 255 := by
      simp [List.length_take]; omega
    have hnotr : ¬ ((id :: f.take 255).length > 256) := by
      simp [htl]
    simp only [hnotr, if_neg, not_false_iff]
  · -- no truncation: the once-updated history is id :: f
    simp only [hlen, if_neg, not_false_iff]
    have hfil : (id :: f).filter (fun e => e != id) = f := by
      rw [List.filter_cons]
      simp only [bne_self_eq_false, Bool.false_eq_true, if_neg, not_false_iff]
      exact filter_ne_self_of_filter
    rw [hfil]
    simp only [hlen, if_neg, not_false_iff]

/-! ## C4: the concrete ranking scenario of the spec -/

/-- C4 counterexample: on backend windows [{id 1, focused}, {id 2},
{id 3}] with history [3, 2] (most-recent-first), the code does NOT produce
the claimed ranked order [1, 2, 3], and the rank of window 2 is not 1: the
history position of id 2 is 1 (id 3 holds position 0), so window 2 ranks
1 + 1 = 2 and the ranked order is [1, 3, 2]. -/
theorem scenario_ranking_counterexample :
    order_windows [3, 2]
        [⟨1, true⟩, ⟨2, false⟩, ⟨3, false⟩] ≠
      [⟨1, true⟩, ⟨2, false⟩, ⟨3, false⟩] ∧
    codeRank [3, 2] (focusedId [⟨1, true⟩, ⟨2, false⟩, ⟨3, false⟩])
        ⟨2, false⟩ 1 ≠ 1 := by
  decide

/-- C4 amended: on backend windows [{id 1, focused}, {id 2}, {id 3}] with
history [3, 2], ranking assigns rank(1) = 0, rank(2) = 2, rank(3) = 1 and
produces the ranked order [1, 3, 2] (window 3, the most recent in history,
before window 2). -/
theorem scenario_ranking_amended :
    codeRank [3, 2] (focusedId [⟨1, true⟩, ⟨2, false⟩, ⟨3, false⟩])
        ⟨1, true⟩ 0 = 0 ∧
    codeRank [3, 2] (focusedId [⟨1, true⟩, ⟨2, false⟩, ⟨3, false⟩])
        ⟨2, false⟩ 1 = 2 ∧
    codeRank [3, 2] (focusedId [⟨1, true⟩, ⟨2, false⟩, ⟨3, false⟩])
        ⟨3, false⟩ 2 = 1 ∧
    order_windows [3, 2]
        [⟨1, true⟩, ⟨2, false⟩, ⟨3, false⟩] =
      [⟨1, true⟩, ⟨3, false⟩, ⟨2, false⟩] := by
  decide

/-! ## C1: full characterization of the MRU ranking -/

lemma orderIndexAux_eq {order : List Nat} (h : order.Nodup) (x : Nat) :
    ∀ n, orderIndexAux n order x =
      if x ∈ order then some (n + List.indexOf x order) else none := by
  induction order with
  | nil => intro n; simp [orderIndexAux]
  | cons a rest ih =>
    intro n
    have hrest : rest.Nodup := (List.nodup_cons.mp h).2
    have hna : a ∉ rest := (List.nodup_cons.mp h).1
    by_cases hx : x ∈ rest
    · have hax : a ≠ x := fun he => hna (he ▸ hx)
      rw [orderIndexAux, ih hrest (n + 1)]
      have hmem : x ∈ a :: rest := List.mem_cons_of_mem _ hx
      simp only [hx, if_pos, hmem]
      rw [List.indexOf_cons_ne _ hax]
      have harith : n + 1 + List.indexOf x rest =
          n + (List.indexOf x rest).succ := by
        omega
      rw [harith]
    · rw [orderIndexAux, ih hrest (n + 1)]
      simp only [hx, if_neg, not_false_iff]
      by_cases hax : a = x
      · subst hax
        simp [List.indexOf_cons_self]
      · have hnm : x ∉ a :: rest := by
          intro hc
          rcases List.mem_cons.mp hc with hc | hc
          · exact hax hc.symm
          · exact hx hc
        simp [hax, hnm]

lemma orderIndex_eq {order : List Nat} (h : order.Nodup) (x : Nat) :
    orderIndex order x =
      if x ∈ order then some (List.indexOf x order) else none := by
  rw [orderIndex, orderIndexAux_eq h x 0]
  by_cases hx : x ∈ order <;> simp [hx]

lemma eq_of_mem_of_length_le_one {α : Type _} {l : List α} {a b : α}
    (h : l.length ≤ 1) (ha : a ∈ l) (hb : b ∈ l) : a = b := by
  match l with
  | [] => cases ha
  | [x] =>
    simp only [List.mem_singleton] at ha hb
    rw [ha, hb]
  | x :: y :: _ => simp at h

lemma id_inj {ws : List WindowEntry}
    (hids : (ws.map (fun v => v.id)).Nodup)
    {u w : WindowEntry} (hu : u ∈ ws) (hw : w ∈ ws) (h : u.id = w.id) :
    u = w := by
  have hnd : ws.Nodup := List.Nodup.of_map _ hids
  exact (List.nodup_map_iff_inj_on hnd).mp hids u hu w hw h

lemma mem_focused_iff {ws : List WindowEntry}
    (hids : (ws.map (fun v => v.id)).Nodup)
    (hfoc : (ws.filter (fun v => v.is_focused)).length ≤ 1)
    {w : WindowEntry} (hw : w ∈ ws) :
    some w.id = focusedId ws ↔ w.is_focused = true := by
  constructor
  · intro h
    obtain ⟨u, hu, hui⟩ := Option.map_eq_some'.mp h.symm
    have hufoc := List.find?_some hu
    have humem := List.mem_of_find?_eq_some hu
    have huw : u = w := id_inj hids humem hw hui
    rw [← huw]
    exact hufoc
  · intro hwf
    have hsome : (ws.find? (fun v => v.is_focused)).isSome :=
      List.find?_isSome.mpr ⟨w, hw, hwf⟩
    obtain ⟨u, hu⟩ := Option.isSome_iff_exists.mp hsome
    have hufoc := List.find?_some hu
    have humem := List.mem_of_find?_eq_some hu
    have huw : u = w := by
      apply eq_of_mem_of_length_le_one hfoc
      · exact List.mem_filter.mpr ⟨humem, hufoc⟩
      · exact List.mem_filter.mpr ⟨hw, hwf⟩
    simp [focusedId, hu, huw]

lemma origIdx_of_enum {ws : List WindowEntry}
    (hids : (ws.map (fun v => v.id)).Nodup) {i : Nat} {w : WindowEntry}
    (hiw : (i, w) ∈ ws.enum) : origIdx ws w = i := by
  have hget : ws[i]? = some w := List.mem_enum_iff_getElem?.mp hiw
  have hlen : i < ws.length := by
    by_contra hcon
    push_neg at hcon
    rw [List.getElem?_eq_none hcon] at hget
    cases hget
  have hlen2 : i < (ws.map (fun v => v.id)).length := by simpa using hlen
  have hmap : (ws.map (fun v => v.id))[i]? = some w.id := by
    rw [List.getElem?_map, hget]
    rfl
  have hgeteq : (ws.map (fun v => v.id)).get ⟨i, hlen2⟩ = w.id := by
    have := List.getElem?_eq_getElem hlen2
    rw [this] at hmap
    simpa using hmap
  rw [origIdx, ← hgeteq]
  exact List.get_indexOf hids ⟨i, hlen2⟩

lemma mem_of_enum_snd {ws : List WindowEntry} {i : Nat} {w : WindowEntry}
    (hiw : (i, w) ∈ ws.enum) : w ∈ ws := by
  have := List.mem_map_of_mem Prod.snd hiw
  rwa [List.enum_map_snd] at this

lemma codeRank_eq_specRank {order : List Nat} {ws : List WindowEntry}
    (horder : order.Nodup) (hids : (ws.map (fun v => v.id)).Nodup)
    (hfoc : (ws.filter (fun v => v.is_focused)).length ≤ 1)
    {i : Nat} {w : WindowEntry} (hiw : (i, w) ∈ ws.enum) :
    codeRank order (focusedId ws) w i = specRank order ws w := by
  have hw : w ∈ ws := mem_of_enum_snd hiw
  rw [codeRank, specRank]
  by_cases hf : w.is_focused = true
  · have hfi : some w.id = focusedId ws := (mem_focused_iff hids hfoc hw).mpr hf
    simp [hfi, hf]
  · have hne : ¬ some w.id = focusedId ws := fun hc =>
      hf ((mem_focused_iff hids hfoc hw).mp hc)
    simp only [hne, if_neg, not_false_iff, hf, Bool.false_eq_true]
    rw [orderIndex_eq horder w.id]
    by_cases hmem : w.id ∈ order
    · simp [hmem]
    · simp only [hmem, if_neg, not_false_iff]
      rw [orderIndexSize, List.Nodup.dedup horder, origIdx_of_enum hids hiw]

lemma rankedList_map_snd_snd (order : List Nat) (ws : List WindowEntry) :
    (rankedList order ws).map (fun t => t.2.2) = ws := by
  rw [rankedList, List.map_map]
  have hcomp : ((fun t : Nat × Nat × WindowEntry => t.2.2) ∘
      fun p : Nat × WindowEntry =>
        (codeRank order (focusedId ws) p.2 p.1, p.1, p.2)) = Prod.snd := rfl
  rw [hcomp, List.enum_map_snd]

lemma rankedList_map_snd_fst (order : List Nat) (ws : List WindowEntry) :
    (rankedList order ws).map (fun t => t.2.1) = List.range ws.length := by
  rw [rankedList, List.map_map]
  have hcomp : ((fun t : Nat × Nat × WindowEntry => t.2.1) ∘
      fun p : Nat × WindowEntry =>
        (codeRank order (focusedId ws) p.2 p.1, p.1, p.2)) = Prod.fst := rfl
  rw [hcomp, List.enum_map_fst]

/-- Shared helper: the ranking returns a permutation of its input (used by
the C1 characterization and by the C9 bounds argument). -/
lemma order_windows_perm (order : List Nat) (ws : List WindowEntry) :
    (order_windows order ws).Perm ws := by
  rw [order_windows]
  have h1 := List.perm_insertionSort rankLe (rankedList order ws)
  have h2 := List.Perm.map (fun t : Nat × Nat × WindowEntry => t.2.2) h1
  rwa [rankedList_map_snd_snd] at h2

lemma rankedList_decode {order : List Nat} {ws : List WindowEntry}
    (horder : order.Nodup) (hids : (ws.map (fun v => v.id)).Nodup)
    (hfoc : (ws.filter (fun v => v.is_focused)).length ≤ 1)
    {x : Nat × Nat × WindowEntry} (hx : x ∈ rankedList order ws) :
    x.1 = specRank order ws x.2.2 ∧ x.2.1 = origIdx ws x.2.2 ∧
      x.2.2 ∈ ws := by
  obtain ⟨p, hp, hpx⟩ := List.mem_map.mp hx
  obtain ⟨i, w⟩ := p
  rw [← hpx]
  refine ⟨?_, ?_, ?_⟩
  · exact codeRank_eq_specRank horder hids hfoc hp
  · exact (origIdx_of_enum hids hp).symm
  · exact mem_of_enum_snd hp

/-- C1: characterization of order_windows under the well-formedness
conditions that hold for every real snapshot (pairwise distinct window ids,
at most one window flagged focused, duplicate-free history). The output is
a permutation of the input that is strictly increasing in the key
(specRank, original index), where specRank is the rank the spec describes —
0 for the focused window, 1 + history position for windows in the history,
1 + history length + original index for windows absent from it. Strict
pairwise growth in that key is exactly the claim: the focused window first,
history windows by recency, absent windows after every present window and
in their original relative order, ties broken by original index — a total,
deterministic, stable order. The focused window is additionally singled out
as the head of the output. -/
theorem order_windows_ranks_by_recency (order : List Nat)
    (ws : List WindowEntry) (horder : order.Nodup)
    (hids : (ws.map (fun v => v.id)).Nodup)
    (hfoc : (ws.filter (fun v => v.is_focused)).length ≤ 1) :
    (order_windows order ws).Perm ws ∧
    (order_windows order ws).Pairwise (fun u v =>
      specRank order ws u < specRank order ws v ∨
        (specRank order ws u = specRank order ws v ∧
          origIdx ws u < origIdx ws v)) ∧
    (∀ w ∈ ws, w.is_focused = true →
      (order_windows order ws).head? = some w) := by
  have hperm := order_windows_perm order ws
  have hsorted : List.Pairwise rankLe
      ((rankedList order ws).insertionSort rankLe) :=
    List.sorted_insertionSort rankLe (rankedList order ws)
  have hperm_s := List.perm_insertionSort rankLe (rankedList order ws)
  have hnodup_idx :
      (((rankedList order ws).insertionSort rankLe).map
        (fun t => t.2.1)).Nodup := by
    have hp := List.Perm.map (fun t : Nat × Nat × WindowEntry => t.2.1) hperm_s
    rw [rankedList_map_snd_fst] at hp
    exact (List.Perm.nodup_iff hp).mpr (List.nodup_range _)
  have hpair_ne : List.Pairwise (fun a b : Nat × Nat × WindowEntry =>
      a.2.1 ≠ b.2.1) ((rankedList order ws).insertionSort rankLe) :=
    List.pairwise_map.mp hnodup_idx
  have hstrict : List.Pairwise (fun a b : Nat × Nat × WindowEntry =>
      a.1 < b.1 ∨ (a.1 = b.1 ∧ a.2.1 < b.2.1))
      ((rankedList order ws).insertionSort rankLe) := by
    refine (hsorted.and hpair_ne).imp ?_
    intro a b hab
    rcases hab with ⟨hle, hne⟩
    rw [rankLe] at hle
    omega
  have hdecode : ∀ x ∈ (rankedList order ws).insertionSort rankLe,
      x.1 = specRank order ws x.2.2 ∧ x.2.1 = origIdx ws x.2.2 ∧
        x.2.2 ∈ ws := by
    intro x hx
    exact rankedList_decode horder hids hfoc ((hperm_s.mem_iff).mp hx)
  have hspec : List.Pairwise (fun a b : Nat × Nat × WindowEntry =>
      specRank order ws a.2.2 < specRank order ws b.2.2 ∨
        (specRank order ws a.2.2 = specRank order ws b.2.2 ∧
          origIdx ws a.2.2 < origIdx ws b.2.2))
      ((rankedList order ws).insertionSort rankLe) := by
    refine hstrict.imp_of_mem ?_
    intro a b ha hb hab
    obtain ⟨ha1, ha2, _⟩ := hdecode a ha
    obtain ⟨hb1, hb2, _⟩ := hdecode b hb
    rw [← ha1, ← ha2, ← hb1, ← hb2]
    exact hab
  have hout : (order_windows order ws).Pairwise (fun u v =>
      specRank order ws u < specRank order ws v ∨
        (specRank order ws u = specRank order ws v ∧
          origIdx ws u < origIdx ws v)) := by
    rw [order_windows]
    exact List.pairwise_map.mpr hspec
  refine ⟨hperm, hout, ?_⟩
  intro w hw hwf
  have hw0 : specRank order ws w = 0 := by simp [specRank, hwf]
  have hwout : w ∈ order_windows order ws := (hperm.mem_iff).mpr hw
  cases hq : order_windows order ws with
  | nil => rw [hq] at hwout; cases hwout
  | cons u rest =>
    rw [hq] at hwout hout
    by_cases huw : w = u
    · rw [huw]
      rfl
    · have hwrest : w ∈ rest := by
        rcases List.mem_cons.mp hwout with hc | hc
        · exact absurd hc huw
        · exact hc
      have hrel := List.rel_of_pairwise_cons hout hwrest
      have hu0 : specRank order ws u = 0 := by omega
      have hufoc : u.is_focused = true := by
        by_contra hcon
        rw [specRank] at hu0
        simp only [hcon, Bool.false_eq_true, if_neg, not_false_iff] at hu0
        by_cases hm : u.id ∈ order <;> simp [hm] at hu0
      have humem : u ∈ ws := by
        have hmem2 : u ∈ order_windows order ws := by
          rw [hq]
          exact List.mem_cons_self u rest
        exact (hperm.mem_iff).mp hmem2
      have heq : u = w := by
        apply eq_of_mem_of_length_le_one hfoc
        · exact List.mem_filter.mpr ⟨humem, hufoc⟩
        · exact List.mem_filter.mpr ⟨hw, hwf⟩
      rw [heq] at hrel
      rcases hrel with hlt | ⟨_, hlt⟩ <;> omega

/-- Witness for C1 at a concrete input: history [7, 5], windows
[{id 5}, {id 9, focused}, {id 4}, {id 7}]. -/
theorem order_windows_ranks_by_recency_witness :
    ([7, 5] : List Nat).Nodup ∧
    (([⟨5, false⟩, ⟨9, true⟩, ⟨4, false⟩, ⟨7, false⟩] :
        List WindowEntry).map (fun v => v.id)).Nodup ∧
    (([⟨5, false⟩, ⟨9, true⟩, ⟨4, false⟩, ⟨7, false⟩] :
        List WindowEntry).filter (fun v => v.is_focused)).length ≤ 1 ∧
    ((order_windows [7, 5]
        [⟨5, false⟩, ⟨9, true⟩, ⟨4, false⟩, ⟨7, false⟩]).Perm
      [⟨5, false⟩, ⟨9, true⟩, ⟨4, false⟩, ⟨7, false⟩] ∧
    (order_windows [7, 5]
        [⟨5, false⟩, ⟨9, true⟩, ⟨4, false⟩, ⟨7, false⟩]).Pairwise
      (fun u v =>
        specRank [7, 5] [⟨5, false⟩, ⟨9, true⟩, ⟨4, false⟩, ⟨7, false⟩] u <
            specRank [7, 5]
              [⟨5, false⟩, ⟨9, true⟩, ⟨4, false⟩, ⟨7, false⟩] v ∨
          (specRank [7, 5] [⟨5, false⟩, ⟨9, true⟩, ⟨4, false⟩, ⟨7, false⟩] u =
              specRank [7, 5]
                [⟨5, false⟩, ⟨9, true⟩, ⟨4, false⟩, ⟨7, false⟩] v ∧
            origIdx [⟨5, false⟩, ⟨9, true⟩, ⟨4, false⟩, ⟨7, false⟩] u <
              origIdx [⟨5, false⟩, ⟨9, true⟩, ⟨4, false⟩, ⟨7, false⟩] v)) ∧
    (∀ w ∈ ([⟨5, false⟩, ⟨9, true⟩, ⟨4, false⟩, ⟨7, false⟩] :
        List WindowEntry), w.is_focused = true →
      (order_windows [7, 5]
          [⟨5, false⟩, ⟨9, true⟩, ⟨4, false⟩, ⟨7, false⟩]).head? =
        some w)) :=
  ⟨by decide, by decide, by decide,
    order_windows_ranks_by_recency [7, 5]
      [⟨5, false⟩, ⟨9, true⟩, ⟨4, false⟩, ⟨7, false⟩]
      (by decide) (by decide) (by decide)⟩

/-! ## C2: which session-ending paths invoke focus -/

lemma finalize_focus (s : SwState) (hfin : s.finalized = false)
    {w : WindowEntry} (hw : s.windows.get? s.selected = some w) :
    (finalize s).focusCalls = s.focusCalls ++ [w.id] := by
  rw [finalize]
  simp only [hfin, Bool.false_eq_true, if_neg, not_false_iff]
  rw [hw]

lemma update_modifiers_focus (s : SwState) (hfin : s.finalized = false)
    (halt : s.modAlt = true)
    {w : WindowEntry} (hw : s.windows.get? s.selected = some w) :
    (update_modifiers s false).focusCalls = s.focusCalls ++ [w.id] := by
  rw [update_modifiers]
  simp only [halt, Bool.not_false, Bool.and_self, if_true]
  exact finalize_focus { s with modAlt := false } hfin hw

/-- C2 counterexample: in a freshly started session over windows
[{id 1, focused}, {id 2}] (empty history, selection on index 1), releasing
the trigger modifier Alt does invoke the backend focus operation — the
focus-call log is no longer empty. The claim that every listed
session-ending "cancel" path (Alt release included) never invokes focus is
therefore false on the code: release_key calls finalize, which calls
focus_window on the selected window. -/
theorem alt_release_invokes_focus :
    (release_key (initState (order_windows [] [⟨1, true⟩, ⟨2, false⟩]))
      Keysym.altL).focusCalls ≠ [] := by
  decide

/-- C2 amended: pressing Escape or losing the layer surface ends the
session without invoking focus, but releasing the trigger modifier — via
release_key on an Alt keysym, or via update_modifiers observing alt go
from held to released — is a commit path: it finalizes and invokes the
backend focus operation on the selected window. -/
theorem cancel_paths_vs_alt_release (s : SwState)
    (hfin : s.finalized = false) (hsel : s.selected < s.windows.length)
    (halt : s.modAlt = true) :
    (press_key s Keysym.escape).focusCalls = s.focusCalls ∧
    (press_key s Keysym.escape).exit = true ∧
    (step s SwEvent.layerClosed).focusCalls = s.focusCalls ∧
    (step s SwEvent.layerClosed).exit = true ∧
    ∃ w, s.windows.get? s.selected = some w ∧
      (release_key s Keysym.altL).focusCalls = s.focusCalls ++ [w.id] ∧
      (update_modifiers s false).focusCalls = s.focusCalls ++ [w.id] := by
  obtain ⟨w, hw⟩ : ∃ w, s.windows.get? s.selected = some w :=
    ⟨_, List.get?_eq_get hsel⟩
  refine ⟨rfl, rfl, rfl, rfl, w, hw, ?_, ?_⟩
  · show (if Keysym.altL = Keysym.altL ∨ Keysym.altL = Keysym.altR then
        finalize s else s).focusCalls = s.focusCalls ++ [w.id]
    rw [if_pos (Or.inl rfl)]
    exact finalize_focus s hfin hw
  · exact update_modifiers_focus s hfin halt hw

/-- Witness for the C2 amended theorem at the concrete session state
sampleSession. -/
theorem cancel_paths_vs_alt_release_witness :
    sampleSession.finalized = false ∧
    sampleSession.selected < sampleSession.windows.length ∧
    sampleSession.modAlt = true ∧
    ((press_key sampleSession Keysym.escape).focusCalls =
        sampleSession.focusCalls ∧
    (press_key sampleSession Keysym.escape).exit = true ∧
    (step sampleSession SwEvent.layerClosed).focusCalls =
      sampleSession.focusCalls ∧
    (step sampleSession SwEvent.layerClosed).exit = true ∧
    ∃ w, sampleSession.windows.get? sampleSession.selected = some w ∧
      (release_key sampleSession Keysym.altL).focusCalls =
        sampleSession.focusCalls ++ [w.id] ∧
      (update_modifiers sampleSession false).focusCalls =
        sampleSession.focusCalls ++ [w.id]) :=
  ⟨by decide, by decide, by decide,
    cancel_paths_vs_alt_release sampleSession
      (by decide) (by decide) (by decide)⟩

/-! ## C3: MRU mutation on a cancelled session -/

/-- C3, evaluation at the failing input: a session over backend windows
[{id 1, focused}, {id 2}] with empty history updates the history to [1] at
snapshot time, then the user cancels with Escape. No focus commit happens —
the focus-call log stays empty — yet run_switcher still returns the
selected id 2 to the daemon, and the daemon main loop then updates the MRU
history to [2, 1]. The claim (and the spec) require a cancelled session to
leave the history at [1]. -/
theorem mru_updated_on_cancelled_session :
    (run_switcher [] [⟨1, true⟩, ⟨2, false⟩]
        [SwEvent.pressKey Keysym.escape]).1 = [1] ∧
    (run_switcher [] [⟨1, true⟩, ⟨2, false⟩]
        [SwEvent.pressKey Keysym.escape]).2.2 = [] ∧
    (run_switcher [] [⟨1, true⟩, ⟨2, false⟩]
        [SwEvent.pressKey Keysym.escape]).2.1 = some 2 ∧
    daemon_after_session
        (run_switcher [] [⟨1, true⟩, ⟨2, false⟩]
          [SwEvent.pressKey Keysym.escape]).1
        (run_switcher [] [⟨1, true⟩, ⟨2, false⟩]
          [SwEvent.pressKey Keysym.escape]).2.1 = [2, 1] := by
  decide

/-! ## C9: the selected index is always a valid index -/

lemma finalize_fields (s : SwState) :
    (finalize s).selected = s.selected ∧ (finalize s).windows = s.windows := by
  rw [finalize]
  by_cases hf : s.finalized
  · simp [hf]
  · simp only [hf, Bool.false_eq_true, if_neg, not_false_iff]
    cases h : s.windows.get? s.selected <;> simp [h]

lemma cycle_preserves (s : SwState) (d : Int)
    (h : s.selected < s.windows.length) :
    (cycle s d).selected < (cycle s d).windows.length ∧
      (cycle s d).windows = s.windows := by
  rw [cycle]
  have hne : ¬ s.windows.isEmpty := by
    cases hw : s.windows with
    | nil => rw [hw] at h; simp at h
    | cons a l => simp [hw]
  rw [if_neg hne]
  have hlen : (0 : Int) < (s.windows.length : Int) := by
    have h0 : 0 < s.windows.length := by omega
    exact_mod_cast h0
  have h1 : 0 ≤ ((s.selected : Int) + d).emod ((s.windows.length : Int)) :=
    Int.emod_nonneg _ (by omega)
  have h2 : ((s.selected : Int) + d).emod ((s.windows.length : Int)) <
      (s.windows.length : Int) := Int.emod_lt_of_pos _ hlen
  by_cases hnext :
      (((s.selected : Int) + d).emod ((s.windows.length : Int))).toNat ≠
        s.selected
  · rw [if_pos hnext]
    refine ⟨?_, rfl⟩
    show (((s.selected : Int) + d).emod ((s.windows.length : Int))).toNat <
      s.windows.length
    omega
  · rw [if_neg hnext]
    exact ⟨h, rfl⟩

lemma step_preserves (s : SwState) (e : SwEvent)
    (h : s.selected < s.windows.length) :
    (step s e).selected < (step s e).windows.length ∧
      (step s e).windows = s.windows := by
  cases e with
  | pressKey k =>
    cases k with
    | tab => exact cycle_preserves s 1 h
    | isoLeftTab => exact cycle_preserves s (-1) h
    | escape => exact ⟨h, rfl⟩
    | enter =>
      obtain ⟨h1, h2⟩ := finalize_fields s
      refine ⟨?_, h2⟩
      show (finalize s).selected < (finalize s).windows.length
      rw [h1, h2]
      exact h
    | kpEnter =>
      obtain ⟨h1, h2⟩ := finalize_fields s
      refine ⟨?_, h2⟩
      show (finalize s).selected < (finalize s).windows.length
      rw [h1, h2]
      exact h
    | altL => exact ⟨h, rfl⟩
    | altR => exact ⟨h, rfl⟩
    | other => exact ⟨h, rfl⟩
  | releaseKey k =>
    show (release_key s k).selected < (release_key s k).windows.length ∧
      (release_key s k).windows = s.windows
    rw [release_key]
    by_cases hk : k = Keysym.altL ∨ k = Keysym.altR
    · rw [if_pos hk]
      obtain ⟨h1, h2⟩ := finalize_fields s
      exact ⟨by rw [h1, h2]; exact h, h2⟩
    · rw [if_neg hk]
      exact ⟨h, rfl⟩
  | updateModifiers alt =>
    show (update_modifiers s alt).selected <
        (update_modifiers s alt).windows.length ∧
      (update_modifiers s alt).windows = s.windows
    rw [update_modifiers]
    by_cases hc : (s.modAlt && !alt) = true
    · rw [if_pos hc]
      obtain ⟨h1, h2⟩ := finalize_fields ({ s with modAlt := alt } : SwState)
      exact ⟨by rw [h1, h2]; exact h, h2⟩
    · rw [if_neg hc]
      exact ⟨h, rfl⟩
  | layerClosed => exact ⟨h, rfl⟩

lemma runEvents_preserves (es : List SwEvent) :
    ∀ s : SwState, s.selected < s.windows.length →
      (runEvents s es).selected < (runEvents s es).windows.length := by
  induction es with
  | nil => intro s h; exact h
  | cons e rest ih =>
    intro s h
    rw [runEvents, List.foldl_cons]
    by_cases hx : s.exit
    · simp only [hx, if_pos]
      exact ih s h
    · simp only [hx, Bool.false_eq_true, if_neg, not_false_iff]
      exact ih _ (step_preserves s e h).1

/-- C9: the session never starts on an empty snapshot (run_switcher
returns immediately), the ranked list has the same length as the snapshot,
the initial selection (1 when at least two windows exist, else 0) is in
bounds, every dispatch step maps an in-bounds selection to an in-bounds
selection without touching the window list (cycling by any delta wraps both
ways through Int.emod), and consequently after any event sequence the
lookup of the selected window succeeds. -/
theorem selected_index_always_valid (mru : List Nat)
    (bws : List WindowEntry) (hne : bws ≠ []) (es : List SwEvent) :
    (∀ m : List Nat, ∀ evs : List SwEvent,
      run_switcher m [] evs = (m, none, [])) ∧
    (order_windows mru bws).length = bws.length ∧
    initSelected (order_windows mru bws) < (order_windows mru bws).length ∧
    (∀ s : SwState, ∀ e : SwEvent, s.selected < s.windows.length →
      (step s e).selected < (step s e).windows.length ∧
        (step s e).windows = s.windows) ∧
    ∃ w, (runEvents (initState (order_windows mru bws)) es).windows.get?
        (runEvents (initState (order_windows mru bws)) es).selected =
      some w := by
  have hlen : (order_windows mru bws).length = bws.length :=
    (order_windows_perm mru bws).length_eq
  have hpos : 0 < (order_windows mru bws).length := by
    rw [hlen]
    cases bws with
    | nil => exact absurd rfl hne
    | cons a l => simp
  have hinit : initSelected (order_windows mru bws) <
      (order_windows mru bws).length := by
    rw [initSelected]
    by_cases hgt : (order_windows mru bws).length > 1
    · rw [if_pos hgt]
      omega
    · rw [if_neg hgt]
      omega
  have hrun := runEvents_preserves es (initState (order_windows mru bws))
    hinit
  refine ⟨fun m evs => rfl, hlen, hinit, step_preserves, ?_⟩
  exact ⟨_, List.get?_eq_get hrun⟩

/-- Witness for C9 at a concrete input: history [2], snapshot
[{id 1, focused}, {id 2}], a Tab press followed by an Escape press. -/
theorem selected_index_always_valid_witness :
    (([⟨1, true⟩, ⟨2, false⟩] : List WindowEntry) ≠ []) ∧
    ((∀ m : List Nat, ∀ evs : List SwEvent,
      run_switcher m [] evs = (m, none, [])) ∧
    (order_windows [2] [⟨1, true⟩, ⟨2, false⟩]).length =
      ([⟨1, true⟩, ⟨2, false⟩] : List WindowEntry).length ∧
    initSelected (order_windows [2] [⟨1, true⟩, ⟨2, false⟩]) <
      (order_windows [2] [⟨1, true⟩, ⟨2, false⟩]).length ∧
    (∀ s : SwState, ∀ e : SwEvent, s.selected < s.windows.length →
      (step s e).selected < (step s e).windows.length ∧
        (step s e).windows = s.windows) ∧
    ∃ w, (runEvents (initState (order_windows [2] [⟨1, true⟩, ⟨2, false⟩]))
          [SwEvent.pressKey Keysym.tab,
            SwEvent.pressKey Keysym.escape]).windows.get?
        (runEvents (initState (order_windows [2] [⟨1, true⟩, ⟨2, false⟩]))
          [SwEvent.pressKey Keysym.tab,
            SwEvent.pressKey Keysym.escape]).selected = some w) :=
  ⟨by decide,
    selected_index_always_valid [2] [⟨1, true⟩, ⟨2, false⟩] (by decide)
      [SwEvent.pressKey Keysym.tab, SwEvent.pressKey Keysym.escape]⟩

/-! ## C5: adapter operations on unsupported backends -/

/-- C5 counterexample: focused_output_info on the Sway backend does not
fail — it succeeds with the default value (None, 1) — so the claim that
every adapter operation on Sway/Kwin/Gnome fails with "backend not
supported" is false for focused_output. -/
theorem focused_output_defaults_on_unsupported :
    focused_output_info trivialEnv BackendKind.Sway = Except.ok (none, 1) ∧
    focused_output_info trivialEnv BackendKind.Sway ≠
      Except.error "backend not supported" :=
  ⟨rfl, fun h => Except.noConfusion h⟩

/-- C5 amended: for every backend other than Niri and Hyprland, and any
environment, list_windows and focus fail with the "backend not supported"
error, while focused_output succeeds with the default (None, 1). -/
theorem unsupported_backend_operations (env : BackendEnv) (b : BackendKind)
    (id : Nat)
    (hb : b = BackendKind.Sway ∨ b = BackendKind.Kwin ∨
      b = BackendKind.Gnome) :
    backend_windows env b = Except.error "backend not supported" ∧
    focus_window env b id = Except.error "backend not supported" ∧
    focused_output_info env b = Except.ok (none, 1) := by
  rcases hb with h | h | h <;> subst h <;> exact ⟨rfl, rfl, rfl⟩

/-- Witness for the C5 amended theorem at backend Sway, the trivial
environment and id 0. -/
theorem unsupported_backend_operations_witness :
    (BackendKind.Sway = BackendKind.Sway ∨
      BackendKind.Sway = BackendKind.Kwin ∨
      BackendKind.Sway = BackendKind.Gnome) ∧
    (backend_windows trivialEnv BackendKind.Sway =
        Except.error "backend not supported" ∧
    focus_window trivialEnv BackendKind.Sway 0 =
      Except.error "backend not supported" ∧
    focused_output_info trivialEnv BackendKind.Sway =
      Except.ok (none, 1)) :=
  ⟨Or.inl rfl,
    unsupported_backend_operations trivialEnv BackendKind.Sway 0
      (Or.inl rfl)⟩

/-! ## C6: second daemon launch -/

/-- C6 counterexample: the probe payload "ping" written by the second
launch is read by the running daemon's listener, classified Show (the
default for unrecognized payloads), and — the daemon being idle — delivered
to the main queue as a trigger message, which starts a session. This
refutes the claim's assertion that the probe connection does not cause the
running daemon to enqueue any trigger message. -/
theorem second_launch_probe_enqueues_show :
    parse_socket_msg pingBytes = DaemonMsg.Show ∧
    route false (listener_handle pingBytes).2 =
      Delivered.toMainQueue DaemonMsg.Show := by
  decide

/-- C6 amended: when a peer answers the probe, the second launch fails
with the "witcher daemon already running" error and neither removes nor
rebinds the endpoint; however, the probe is not side-effect-free for the
running daemon: its "ping" payload is classified Show and delivered — to
the main queue as a session trigger when the daemon is idle, or as a
CycleNext control message when a session is active. -/
theorem second_launch_behavior :
    (bind_listener true).2 =
      Except.error "witcher daemon already running" ∧
    FsAction.removeStale ∉ (bind_listener true).1 ∧
    FsAction.bindSocket ∉ (bind_listener true).1 ∧
    route false (listener_handle pingBytes).2 =
      Delivered.toMainQueue DaemonMsg.Show ∧
    route true (listener_handle pingBytes).2 =
      Delivered.toSession SwitcherControl.CycleNext :=
  ⟨rfl, by decide, by decide, by decide, by decide⟩

/-! ## C7: socket payload classification -/

/-- C7: for every payload, the per-connection handler writes exactly the
two-byte acknowledgment "ok" (bytes 0x6F 0x6B), and classifies the payload
ShowPrev precisely when it decodes as UTF-8 and, trimmed, equals "prev"
ASCII-case-insensitively; every other payload — empty, invalid UTF-8,
unrecognized — is Show, never an error. -/
theorem socket_payload_classification (buf : List Nat) :
    (listener_handle buf).1 = [0x6F, 0x6B] ∧
    (listener_handle buf).1.length = 2 ∧
    ((listener_handle buf).2 = DaemonMsg.ShowPrev ↔
      specClassifiesPrev buf) := by
  refine ⟨rfl, rfl, ?_⟩
  show parse_socket_msg buf = DaemonMsg.ShowPrev ↔ specClassifiesPrev buf
  rw [parse_socket_msg]
  cases hd : utf8Decode buf with
  | none =>
    rw [specClassifiesPrev]
    simp only [hd, Option.getD_none]
    constructor
    · intro h
      exact absurd h (by decide)
    · rintro ⟨cs, hcs, _⟩
      cases hcs
  | some cs =>
    rw [specClassifiesPrev]
    simp only [hd, Option.getD_some]
    by_cases he : eqIgnoreAsciiCase (trimCp cs) prevBytes = true
    · simp [he]
    · simp [he]

end Witcher
